import Mathlib

/-!
Verification of the yata indicator library: a shallow embedding of
`src/indicators/average_directional_index.rs` and
`src/indicators/coppock_curve.rs`, together with models of the core
primitives those files use (`Window`, the regular moving-average family,
`Cross`, `RateOfChange`, `ReverseSignal`, `IndicatorResult`, the OHLC
candle contract), which are part of the repository but outside the staged
sources and are therefore modelled from the specification's words.

Numeric model: `ValueType` is IEEE `f64` in the source.  Finite values are
embedded as rationals; NaN and the two infinities are collapsed into a
single non-finite value `none`.  The properties verified here only
distinguish finite from non-finite, and on every state reachable from
finite candles the collapse is exact: non-finite values arise only from a
division by zero and then propagate through every arithmetic operation and
make every comparison false, exactly as NaN does (an infinity produced by
`x/0` with `x ≠ 0` is immediately combined with a NaN or divided by itself
before any comparison reads it).
-/

namespace Yata

/-- Modelled from the spec: a `ValueType` (`f64`) value; `some q` is the
finite value `q`, `none` is non-finite (NaN or an infinity). -/
abbrev V := Option ℚ

/-- `f64` addition: non-finite values propagate. -/
def vadd : V → V → V
  | some a, some b => some (a + b)
  | _, _ => none

/-- `f64` subtraction: non-finite values propagate. -/
def vsub : V → V → V
  | some a, some b => some (a - b)
  | _, _ => none

/-- `f64` multiplication: non-finite values propagate. -/
def vmul : V → V → V
  | some a, some b => some (a * b)
  | _, _ => none

/-- `f64` division: a zero denominator yields a non-finite value
(NaN when the numerator is zero, an infinity otherwise); non-finite
operands propagate. -/
def vdiv : V → V → V
  | some a, some b => if b = 0 then none else some (a / b)
  | _, _ => none

/-- `f64` absolute value. -/
def vabs : V → V
  | some a => some |a|
  | none => none

/-- `f64` equality test: any comparison with a non-finite value is false
(as for NaN). -/
def veq : V → V → Bool
  | some a, some b => decide (a = b)
  | _, _ => false

/-- `f64` strict less-than: any comparison with a non-finite value is false. -/
def vlt : V → V → Bool
  | some a, some b => decide (a < b)
  | _, _ => false

/-- `f64` strict greater-than: any comparison with a non-finite value is false. -/
def vgt : V → V → Bool
  | some a, some b => decide (b < a)
  | _, _ => false

/-- `f64` less-or-equal: any comparison with a non-finite value is false. -/
def vle : V → V → Bool
  | some a, some b => decide (a ≤ b)
  | _, _ => false

/-- `f64` greater-or-equal: any comparison with a non-finite value is false. -/
def vge : V → V → Bool
  | some a, some b => decide (b ≤ a)
  | _, _ => false

/-- Sum of a list of `f64` values (non-finite entries poison the sum). -/
def vsum : List V → V
  | [] => some 0
  | x :: xs => vadd x (vsum xs)

/-- Weighted sum with weights `i, i+1, ...` over a list, oldest first. -/
def wsumFrom : ℕ → List V → V
  | _, [] => some 0
  | i, x :: xs => vadd (vmul (some (i : ℚ)) x) (wsumFrom (i + 1) xs)

/-- Modelled from the spec: the OHLC bar contract.  Only the accessors the
two verified indicators read are kept (`high`, `low`, `close`); candles are
finite by assumption. -/
structure Candle where
  high : ℚ
  low : ℚ
  close : ℚ
deriving DecidableEq

/-- Modelled from the spec: the true-range formula
max(high-low, abs (high-previousClose), abs (low-previousClose)). -/
def Candle.tr (self prev : Candle) : ℚ :=
  max (self.high - self.low) (max |self.high - prev.close| |self.low - prev.close|)

/-- Modelled from the spec: the selectable scalar source of a bar. -/
inductive Source where
  | Close
  | High
  | Low
deriving DecidableEq

/-- Modelled from the spec: `OHLC::source`, selecting one scalar series. -/
def Candle.source (self : Candle) : Source → ℚ
  | .Close => self.close
  | .High => self.high
  | .Low => self.low

/-- Modelled from the spec: the closed, named set of smoothing strategies the
two verified indicators select from (simple, weighted, exponential and
Wilder's smoothing). -/
inductive RegularMethods where
  | SMA
  | WMA
  | EMA
  | RMA
deriving DecidableEq

/-- Modelled from the spec: the private recurrence state of one incremental
Method.  `sma`/`wma` own the window of the last `period` inputs (oldest
first, seeded full); `ema` owns the decay coefficient and the previous
smoothed value (standard exponential alpha = 2/(period+1), Wilder's
alpha = 1/period). -/
inductive RegularMethod where
  | sma (period : ℕ) (buf : List V)
  | wma (period : ℕ) (buf : List V)
  | ema (alpha : ℚ) (prev : V)
deriving DecidableEq

/-- Modelled from the spec: the factory `method(strategyTag, period, seed)`. -/
def method : RegularMethods → ℕ → V → RegularMethod
  | .SMA, period, seed => .sma period (List.replicate period seed)
  | .WMA, period, seed => .wma period (List.replicate period seed)
  | .EMA, period, seed => .ema (2 / ((period : ℚ) + 1)) seed
  | .RMA, period, seed => .ema (1 / (period : ℚ)) seed

/-- Modelled from the spec: one incremental update of a Method, returning the
smoothed output and the updated state. -/
def RegularMethod.next : RegularMethod → V → V × RegularMethod
  | .sma period buf, v =>
      let buf2 := buf.tail ++ [v]
      (vdiv (vsum buf2) (some (period : ℚ)), .sma period buf2)
  | .wma period buf, v =>
      let buf2 := buf.tail ++ [v]
      (vdiv (wsumFrom 1 buf2) (some ((period : ℚ) * ((period : ℚ) + 1) / 2)), .wma period buf2)
  | .ema alpha prev, v =>
      let out := vadd (vmul prev (some (1 - alpha))) (vmul v (some alpha))
      (out, .ema alpha out)

/-- Modelled from the spec: `Window::push` on a candle window held as a list,
oldest first; returns the evicted oldest element (the seed until capacity
many genuine pushes happened, since the window starts filled with the seed). -/
def windowPush (w : List Candle) (c : Candle) : Candle × List Candle :=
  match w with
  | [] => (c, [])
  | x :: xs => (x, xs ++ [c])

/-- Modelled from the spec: a Result is exactly two fixed-length lists, the
numeric values and the signals, emitted per update. -/
structure IndicatorResult where
  values : List V
  signals : List V
deriving DecidableEq

/-- Modelled from the spec: `IndicatorResult::new(values, signals)`. -/
def IndicatorResult.new (values signals : List V) : IndicatorResult :=
  ⟨values, signals⟩

/-- Outcome of `IndicatorConfig::set`: Rust's `.parse().unwrap()` panics on a
value that fails to parse; otherwise the call returns the updated
configuration together with the diagnostics it printed (the `dbg!` line of
the unknown-attribute arm). -/
inductive SetOutcome (α : Type) where
  | panicked
  | ok (cfg : α) (diagnostics : List String)
deriving DecidableEq

/-- The `dbg!` diagnostic text of the unknown-attribute arm of `set`. -/
def unknownAttrMsg (name value ty : String) : String :=
  "Unknown attribute " ++ name ++ " with value " ++ value ++ " for " ++ ty

/-- Decimal digits to a number, failing on a non-digit or an empty list. -/
def digitsToNat : List Char → Option ℕ
  | [] => none
  | cs =>
      if cs.all Char.isDigit then
        some (cs.foldl (fun n c => n * 10 + (c.toNat - 48)) 0)
      else none

/-- Rust `u8::from_str` (the declared type `PeriodType` of every period
field): an optional leading plus sign, then decimal digits, value at
most 255. -/
def parsePeriod (s : String) : Option ℕ :=
  let cs := match s.data with
    | '+' :: rest => rest
    | cs => cs
  match digitsToNat cs with
  | some n => if n ≤ 255 then some n else none
  | none => none

/-- Rust `f64::from_str` (the declared type `ValueType` of the zone field),
modelled on plain decimal literals: an optional sign, an integer part and an
optional fractional part.  Exponent, infinity and NaN forms are not
modelled. -/
def parseValue (s : String) : Option ℚ :=
  let signAndDigits : Bool × List Char := match s.data with
    | '-' :: rest => (true, rest)
    | '+' :: rest => (false, rest)
    | cs => (false, cs)
  let neg := signAndDigits.1
  let cs := signAndDigits.2
  let intPart := cs.takeWhile (fun c => c ≠ '.')
  let rest := cs.dropWhile (fun c => c ≠ '.')
  let q : Option ℚ := match rest with
    | [] => (digitsToNat intPart).map (fun n => (n : ℚ))
    | _ :: frac =>
        match digitsToNat intPart, digitsToNat frac with
        | some n, some f => some ((n : ℚ) + (f : ℚ) / (10 : ℚ) ^ frac.length)
        | _, _ => none
  q.map (fun x => if neg then -x else x)

/-- Modelled from the spec: `FromStr` for the closed strategy set resolves a
strategy name; any other string fails to parse. -/
def parseMethodTag (s : String) : Option RegularMethods :=
  if s = "sma" then some .SMA
  else if s = "wma" then some .WMA
  else if s = "ema" then some .EMA
  else if s = "rma" then some .RMA
  else none

/-- Modelled from the spec: `FromStr` for the source selector. -/
def parseSource (s : String) : Option Source :=
  if s = "close" then some .Close
  else if s = "high" then some .High
  else if s = "low" then some .Low
  else none

/-- The `AverageDirectionalIndex` configuration
(average_directional_index.rs, lines 27-36). -/
structure AverageDirectionalIndex where
  method1 : RegularMethods
  di_length : ℕ
  method2 : RegularMethods
  adx_smoothing : ℕ
  period1 : ℕ
  zone : ℚ
deriving DecidableEq

/-- `AverageDirectionalIndex::validate` (lines 39-47). -/
def AverageDirectionalIndex.validate (self : AverageDirectionalIndex) : Bool :=
  decide (1 ≤ self.di_length) && decide (1 ≤ self.adx_smoothing)
    && decide (0 ≤ self.zone) && decide (self.zone ≤ 1)
    && decide (1 ≤ self.period1) && decide (self.period1 < self.di_length)
    && decide (self.period1 < self.adx_smoothing)

/-- `AverageDirectionalIndex::set` (lines 49-69): each known arm assigns
`value.parse().unwrap()`, so a value that fails to parse panics; the default
arm prints a `dbg!` diagnostic and changes nothing. -/
def AverageDirectionalIndex.set (self : AverageDirectionalIndex) (name value : String) :
    SetOutcome AverageDirectionalIndex :=
  if name = "method1" then
    match parseMethodTag value with
    | some v => .ok { self with method1 := v } []
    | none => .panicked
  else if name = "di_length" then
    match parsePeriod value with
    | some v => .ok { self with di_length := v } []
    | none => .panicked
  else if name = "method2" then
    match parseMethodTag value with
    | some v => .ok { self with method2 := v } []
    | none => .panicked
  else if name = "adx_smoothing" then
    match parsePeriod value with
    | some v => .ok { self with adx_smoothing := v } []
    | none => .panicked
  else if name = "period1" then
    match parsePeriod value with
    | some v => .ok { self with period1 := v } []
    | none => .panicked
  else if name = "zone" then
    match parseValue value with
    | some v => .ok { self with zone := v } []
    | none => .panicked
  else
    .ok self [unknownAttrMsg name value "AverageDirectionalIndex"]

/-- `AverageDirectionalIndex::size` (lines 71-73). -/
def AverageDirectionalIndex.size (_self : AverageDirectionalIndex) : ℕ × ℕ :=
  (3, 2)

/-- The field names `AverageDirectionalIndex::set` matches on. -/
def adxKnownFields : List String :=
  ["method1", "di_length", "method2", "adx_smoothing", "period1", "zone"]

/-- Whether `AverageDirectionalIndex::set` would reach a failing
`.parse().unwrap()` for this name/value pair (the parse of the matched
field's declared type fails). -/
def adxParseFails (name value : String) : Bool :=
  if name = "method1" then (parseMethodTag value).isNone
  else if name = "di_length" then (parsePeriod value).isNone
  else if name = "method2" then (parseMethodTag value).isNone
  else if name = "adx_smoothing" then (parsePeriod value).isNone
  else if name = "period1" then (parsePeriod value).isNone
  else if name = "zone" then (parseValue value).isNone
  else false

/-- `Default for AverageDirectionalIndex` (lines 96-107); zone 0.2 = 1/5. -/
def AverageDirectionalIndex.default : AverageDirectionalIndex :=
  { method1 := .RMA
    di_length := 14
    method2 := .RMA
    adx_smoothing := 14
    period1 := 1
    zone := 1 / 5 }

/-- `AverageDirectionalIndexInstance` (lines 109-118). -/
structure AverageDirectionalIndexInstance where
  cfg : AverageDirectionalIndex
  window : List Candle
  tr_ma : RegularMethod
  plus_di : RegularMethod
  minus_di : RegularMethod
  ma2 : RegularMethod

/-- `IndicatorInitializer::init` for `AverageDirectionalIndex` (lines 76-94). -/
def AverageDirectionalIndex.init (self : AverageDirectionalIndex) (candle : Candle) :
    AverageDirectionalIndexInstance :=
  let cfg := self
  let tr := candle.tr candle
  { window := List.replicate cfg.period1 candle
    tr_ma := method cfg.method1 cfg.di_length (some tr)
    plus_di := method cfg.method1 cfg.di_length (some 0)
    minus_di := method cfg.method1 cfg.di_length (some 0)
    ma2 := method cfg.method2 cfg.adx_smoothing (some 0)
    cfg := cfg }

/-- The `+DM` expression of `dir_mov` (line 130):
`du * (du > dd && du > 0.) as u8 as ValueType`. -/
def plus_dm (du dd : ℚ) : ℚ :=
  du * (if du > dd ∧ du > 0 then 1 else 0)

/-- The `-DM` expression of `dir_mov` (line 131):
`dd * (dd > du && dd > 0.) as u8 as ValueType`. -/
def minus_dm (du dd : ℚ) : ℚ :=
  dd * (if dd > du ∧ dd > 0 then 1 else 0)

/-- `AverageDirectionalIndexInstance::dir_mov` (lines 121-137).  Note the
two final ratios divide by the smoothed true range with no zero check. -/
def AverageDirectionalIndexInstance.dir_mov (self : AverageDirectionalIndexInstance)
    (candle : Candle) : (V × V) × AverageDirectionalIndexInstance :=
  let pushed := windowPush self.window candle
  let prev_candle := pushed.1
  let trStep := self.tr_ma.next (some (candle.tr prev_candle))
  let true_range := trStep.1
  let du := candle.high - prev_candle.high
  let dd := prev_candle.low - candle.low
  let plusStep := self.plus_di.next (some (plus_dm du dd))
  let minusStep := self.minus_di.next (some (minus_dm du dd))
  ((vdiv plusStep.1 true_range, vdiv minusStep.1 true_range),
   { self with
      window := pushed.2
      tr_ma := trStep.2
      plus_di := plusStep.2
      minus_di := minusStep.2 })

/-- `AverageDirectionalIndexInstance::adx` (lines 139-148).  The source
returns `ma2.next(0.)` early when `plus + minus == 0.`; equivalently `ma2`
is fed 0 on that branch and `|plus - minus| / (plus + minus)` otherwise. -/
def AverageDirectionalIndexInstance.adx (self : AverageDirectionalIndexInstance)
    (plus minus : V) : V × AverageDirectionalIndexInstance :=
  let s := vadd plus minus
  let t := if veq s (some 0) = true then some 0 else vdiv (vabs (vsub plus minus)) s
  let step := self.ma2.next t
  (step.1, { self with ma2 := step.2 })

/-- `IndicatorInstance::next` for the ADX instance (lines 158-169). -/
def AverageDirectionalIndexInstance.next (self : AverageDirectionalIndexInstance)
    (candle : Candle) : IndicatorResult × AverageDirectionalIndexInstance :=
  let dm := self.dir_mov candle
  let plus := dm.1.1
  let minus := dm.1.2
  let adxStep := dm.2.adx plus minus
  let adxValue := adxStep.1
  let signal1 : ℤ :=
    (if vgt adxValue (some self.cfg.zone) = true then 1 else 0) *
      ((if vgt plus minus = true then 1 else 0) - (if vlt plus minus = true then 1 else 0))
  let signal2 := vsub plus minus
  (IndicatorResult.new [adxValue, plus, minus] [some ((signal1 : ℤ) : ℚ), signal2], adxStep.2)

/-- The `plus` ratio computed by one `next` step (projection of `dir_mov`). -/
def stepPlus (inst : AverageDirectionalIndexInstance) (c : Candle) : V :=
  (inst.dir_mov c).1.1

/-- The `minus` ratio computed by one `next` step (projection of `dir_mov`). -/
def stepMinus (inst : AverageDirectionalIndexInstance) (c : Candle) : V :=
  (inst.dir_mov c).1.2

/-- The `adx` value computed by one `next` step. -/
def stepAdx (inst : AverageDirectionalIndexInstance) (c : Candle) : V :=
  ((inst.dir_mov c).2.adx (stepPlus inst c) (stepMinus inst c)).1

/-- The first signal of one `next` step (line 162):
`(adx > zone) as i8 * ((plus > minus) as i8 - (plus < minus) as i8)`. -/
def stepSignal1 (inst : AverageDirectionalIndexInstance) (c : Candle) : ℤ :=
  (if vgt (stepAdx inst c) (some inst.cfg.zone) = true then 1 else 0) *
    ((if vgt (stepPlus inst c) (stepMinus inst c) = true then 1 else 0) -
      (if vlt (stepPlus inst c) (stepMinus inst c) = true then 1 else 0))

/-- Results of feeding a list of candles, one `next` per candle. -/
def runADX (inst : AverageDirectionalIndexInstance) : List Candle → List IndicatorResult
  | [] => []
  | c :: cs =>
      let step := inst.next c
      step.1 :: runADX step.2 cs

/-- Final instance after feeding a list of candles through `next`. -/
def feedADX (inst : AverageDirectionalIndexInstance) : List Candle → AverageDirectionalIndexInstance
  | [] => inst
  | c :: cs => feedADX (inst.next c).2 cs

/-- Modelled from the spec: `RateOfChange` keeps a Window of the last
`period` inputs seeded with the seed; `next` returns the percentage change
against the value `period` steps back, with the spec's declared fallback of
0 when that past value is 0. -/
structure RateOfChange where
  buf : List V
deriving DecidableEq

/-- Modelled from the spec: `RateOfChange::new(period, seed)`. -/
def RateOfChange.new (period : ℕ) (seed : V) : RateOfChange :=
  ⟨List.replicate period seed⟩

/-- Modelled from the spec: one `RateOfChange` update. -/
def RateOfChange.next (self : RateOfChange) (v : V) : V × RateOfChange :=
  match self.buf with
  | [] => (some 0, self)
  | past :: rest =>
      let out := if veq past (some 0) = true then some 0 else vdiv (vsub v past) past
      (out, ⟨rest ++ [v]⟩)

/-- Modelled from the spec: `Cross` remembers the previous compared pair;
the first call has no prior pair and reports no-cross. -/
structure Cross where
  prev : Option (V × V)
deriving DecidableEq

/-- Modelled from the spec: `Cross::default()`, no prior pair. -/
def Cross.default : Cross :=
  ⟨none⟩

/-- Sign of an `f64` value as an integer; a non-finite value has sign 0
(every comparison with it is false). -/
def vsign (x : V) : ℤ :=
  if vgt x (some 0) = true then 1 else if vlt x (some 0) = true then -1 else 0

/-- Modelled from the spec: one `Cross` update on the pair `(a, b)`,
comparing the sign of `a - b` against the sign at the previous pair:
1 = a crossed above b, -1 = a crossed below b, 0 = no cross. -/
def Cross.next (self : Cross) (ab : V × V) : ℤ × Cross :=
  let s := vsign (vsub ab.1 ab.2)
  let out : ℤ :=
    match self.prev with
    | none => 0
    | some pab =>
        let ps := vsign (vsub pab.1 pab.2)
        if ps ≤ 0 ∧ 0 < s then 1
        else if 0 ≤ ps ∧ s < 0 then -1
        else 0
  (out, ⟨some ab⟩)

/-- Modelled from the spec: `ReverseSignal`, the pivot detector with
asymmetric left/right lookback: it keeps the last left+right+1 inputs and
signals that the point right steps in the past is a confirmed local maximum
(1) or local minimum (-1) of that window. -/
structure ReverseSignal where
  left : ℕ
  right : ℕ
  buf : List V
deriving DecidableEq

/-- Modelled from the spec: `ReverseSignal::new(leftSpan, rightSpan, seed)`. -/
def ReverseSignal.new (left right : ℕ) (seed : V) : ReverseSignal :=
  ⟨left, right, List.replicate (left + right + 1) seed⟩

/-- Modelled from the spec: one `ReverseSignal` update. -/
def ReverseSignal.next (self : ReverseSignal) (v : V) : ℤ × ReverseSignal :=
  let buf2 := self.buf.tail ++ [v]
  let center := buf2.getD self.left none
  let out : ℤ :=
    if buf2.all (fun x => vge center x) then 1
    else if buf2.all (fun x => vle center x) then -1
    else 0
  (out, ⟨self.left, self.right, buf2⟩)

/-- The `CoppockCurve` configuration (coppock_curve.rs, lines 11-21). -/
structure CoppockCurve where
  period1 : ℕ
  period2 : ℕ
  period3 : ℕ
  s2_left : ℕ
  s2_right : ℕ
  s3_period : ℕ
  source : Source
  method1 : RegularMethods
  method2 : RegularMethods
deriving DecidableEq

/-- `CoppockCurve::validate` (lines 24-26): the body is literally `true`. -/
def CoppockCurve.validate (_self : CoppockCurve) : Bool :=
  true

/-- `CoppockCurve::set` (lines 28-50): each known arm assigns
`value.parse().unwrap()`, so a value that fails to parse panics; the default
arm prints a `dbg!` diagnostic and changes nothing. -/
def CoppockCurve.set (self : CoppockCurve) (name value : String) : SetOutcome CoppockCurve :=
  if name = "period1" then
    match parsePeriod value with
    | some v => .ok { self with period1 := v } []
    | none => .panicked
  else if name = "period2" then
    match parsePeriod value with
    | some v => .ok { self with period2 := v } []
    | none => .panicked
  else if name = "period3" then
    match parsePeriod value with
    | some v => .ok { self with period3 := v } []
    | none => .panicked
  else if name = "s2_left" then
    match parsePeriod value with
    | some v => .ok { self with s2_left := v } []
    | none => .panicked
  else if name = "s2_right" then
    match parsePeriod value with
    | some v => .ok { self with s2_right := v } []
    | none => .panicked
  else if name = "s3_period" then
    match parsePeriod value with
    | some v => .ok { self with s3_period := v } []
    | none => .panicked
  else if name = "source" then
    match parseSource value with
    | some v => .ok { self with source := v } []
    | none => .panicked
  else if name = "method1" then
    match parseMethodTag value with
    | some v => .ok { self with method1 := v } []
    | none => .panicked
  else if name = "method2" then
    match parseMethodTag value with
    | some v => .ok { self with method2 := v } []
    | none => .panicked
  else
    .ok self [unknownAttrMsg name value "CoppockCurve"]

/-- `CoppockCurve::size` (lines 52-54). -/
def CoppockCurve.size (_self : CoppockCurve) : ℕ × ℕ :=
  (2, 3)

/-- The field names `CoppockCurve::set` matches on. -/
def coppockKnownFields : List String :=
  ["period1", "period2", "period3", "s2_left", "s2_right", "s3_period",
   "source", "method1", "method2"]

/-- Whether `CoppockCurve::set` would reach a failing `.parse().unwrap()`
for this name/value pair. -/
def coppockParseFails (name value : String) : Bool :=
  if name = "period1" then (parsePeriod value).isNone
  else if name = "period2" then (parsePeriod value).isNone
  else if name = "period3" then (parsePeriod value).isNone
  else if name = "s2_left" then (parsePeriod value).isNone
  else if name = "s2_right" then (parsePeriod value).isNone
  else if name = "s3_period" then (parsePeriod value).isNone
  else if name = "source" then (parseSource value).isNone
  else if name = "method1" then (parseMethodTag value).isNone
  else if name = "method2" then (parseMethodTag value).isNone
  else false

/-- `Default for CoppockCurve` (lines 80-94). -/
def CoppockCurve.default : CoppockCurve :=
  { period1 := 10
    period2 := 14
    period3 := 11
    s2_left := 4
    s2_right := 2
    s3_period := 5
    source := .Close
    method1 := .WMA
    method2 := .EMA }

/-- `CoppockCurveInstance` (lines 96-107). -/
structure CoppockCurveInstance where
  cfg : CoppockCurve
  roc1 : RateOfChange
  roc2 : RateOfChange
  ma1 : RegularMethod
  ma2 : RegularMethod
  cross_over1 : Cross
  pivot : ReverseSignal
  cross_over2 : Cross

/-- `IndicatorInitializer::init` for `CoppockCurve` (lines 57-78). -/
def CoppockCurve.init (self : CoppockCurve) (candle : Candle) : CoppockCurveInstance :=
  let cfg := self
  let src := candle.source cfg.source
  { roc1 := RateOfChange.new cfg.period2 (some src)
    roc2 := RateOfChange.new cfg.period3 (some src)
    ma1 := method cfg.method1 cfg.period1 (some 0)
    ma2 := method cfg.method2 cfg.s3_period (some 0)
    cross_over1 := Cross.default
    pivot := ReverseSignal.new cfg.s2_left cfg.s2_right (some 0)
    cross_over2 := Cross.default
    cfg := cfg }

/-- `IndicatorInstance::next` for the Coppock instance (lines 116-128). -/
def CoppockCurveInstance.next (self : CoppockCurveInstance) (candle : Candle) :
    IndicatorResult × CoppockCurveInstance :=
  let src := candle.source self.cfg.source
  let roc1Step := self.roc1.next (some src)
  let roc2Step := self.roc2.next (some src)
  let value1Step := self.ma1.next (vadd roc1Step.1 roc2Step.1)
  let value1 := value1Step.1
  let value2Step := self.ma2.next value1
  let value2 := value2Step.1
  let signal1Step := self.cross_over1.next (value1, some 0)
  let signal2Step := self.pivot.next value1
  let signal3Step := self.cross_over2.next (value1, value2)
  (IndicatorResult.new [value1, value2]
      [some ((signal1Step.1 : ℤ) : ℚ), some ((signal2Step.1 : ℤ) : ℚ),
        some ((signal3Step.1 : ℤ) : ℚ)],
   { self with
      roc1 := roc1Step.2
      roc2 := roc2Step.2
      ma1 := value1Step.2
      ma2 := value2Step.2
      cross_over1 := signal1Step.2
      pivot := signal2Step.2
      cross_over2 := signal3Step.2 })

/-- Final Coppock instance after feeding a list of candles through `next`. -/
def feedCoppock (inst : CoppockCurveInstance) : List Candle → CoppockCurveInstance
  | [] => inst
  | c :: cs => feedCoppock (inst.next c).2 cs

/-- Componentwise strict increase between two bars: high, low and close of
the second all strictly above the first's. -/
def candleLtb (a b : Candle) : Bool :=
  decide (a.high < b.high) && decide (a.low < b.low) && decide (a.close < b.close)

/-- A bar sequence strictly increasing from an anchor bar on: each bar's
high, low and close strictly above the previous bar's. -/
def chainIncB : Candle → List Candle → Bool
  | _, [] => true
  | p, b :: bs => candleLtb p b && chainIncB b bs

/-- Concrete configuration used by the degenerate-input runs: simple moving
averages, di_length = adx_smoothing = 2, period1 = 1, zone = 1/5.  It passes
`validate`. -/
def cexCfg : AverageDirectionalIndex :=
  { method1 := .SMA
    di_length := 2
    method2 := .SMA
    adx_smoothing := 2
    period1 := 1
    zone := 1 / 5 }

/-- First (initialization) bar of the degenerate run. -/
def cexC0 : Candle :=
  ⟨1, 0, 5⟩

/-- Second bar: high = low = previous close, so its true range is 0. -/
def cexB1 : Candle :=
  ⟨5, 5, 6⟩

/-- Third bar: again high = low = previous close; after it the SMA of the
true range is 0 and `dir_mov` divides by zero. -/
def cexB2 : Candle :=
  ⟨6, 6, 7⟩

/-- The degenerate strictly-increasing run: two `next` calls after `init`. -/
def cexRun : List IndicatorResult :=
  runADX (cexCfg.init cexC0) [cexB1, cexB2]

/-- Componentwise strict increase between two bars, as a proposition. -/
def candleLt (a b : Candle) : Prop :=
  a.high < b.high ∧ a.low < b.low ∧ a.close < b.close

/-- Consecutive pairs of a bar list are componentwise strictly increasing. -/
def chainPairsB : List Candle → Bool
  | a :: b :: r => candleLtb a b && chainPairsB (b :: r)
  | _ => true

/-- A Method state as built by the factory from a finite non-negative seed
and period ≥ 1 and fed only finite non-negative inputs: all stored values
are finite and non-negative, window lengths equal the period, and the
exponential decay coefficient lies in (0, 1]. -/
def RegularMethod.Nonneg : RegularMethod → Prop
  | .sma p buf => 1 ≤ p ∧ buf.length = p ∧ ∀ x ∈ buf, ∃ q : ℚ, x = some q ∧ 0 ≤ q
  | .wma p buf => 1 ≤ p ∧ buf.length = p ∧ ∀ x ∈ buf, ∃ q : ℚ, x = some q ∧ 0 ≤ q
  | .ema a prev => 0 < a ∧ a ≤ 1 ∧ ∃ q : ℚ, prev = some q ∧ 0 ≤ q

/-- A Method state holding only the value 0 (seed 0, every input so far 0),
with period ≥ 1. -/
def RegularMethod.ZeroState : RegularMethod → Prop
  | .sma p buf => 1 ≤ p ∧ ∀ x ∈ buf, x = some 0
  | .wma p buf => 1 ≤ p ∧ ∀ x ∈ buf, x = some 0
  | .ema _ prev => prev = some 0

theorem feedADX_cfg (bars : List Candle) :
    ∀ inst : AverageDirectionalIndexInstance, (feedADX inst bars).cfg = inst.cfg := by
  induction bars with
  | nil => intro inst; rfl
  | cons c cs ih => intro inst; rw [feedADX, ih]; rfl

theorem feedCoppock_cfg (bars : List Candle) :
    ∀ inst : CoppockCurveInstance, (feedCoppock inst bars).cfg = inst.cfg := by
  induction bars with
  | nil => intro inst; rfl
  | cons c cs ih => intro inst; rw [feedCoppock, ih]; rfl

/-- C1: `size()` is a constant arity pair, (3,2) for AverageDirectionalIndex
and (2,3) for CoppockCurve, unchanged by any configuration mutation, and
every `next` call returns a result whose value-list and signal-list lengths
equal that pair. -/
theorem C1_fixed_arities :
    (∀ cfg : AverageDirectionalIndex, cfg.size = (3, 2)) ∧
    (∀ cfg : CoppockCurve, cfg.size = (2, 3)) ∧
    (∀ (inst : AverageDirectionalIndexInstance) (c : Candle),
      (inst.next c).1.values.length = 3 ∧ (inst.next c).1.signals.length = 2) ∧
    (∀ (inst : CoppockCurveInstance) (c : Candle),
      (inst.next c).1.values.length = 2 ∧ (inst.next c).1.signals.length = 3) :=
  ⟨fun _ => rfl, fun _ => rfl, fun _ _ => ⟨rfl, rfl⟩, fun _ _ => ⟨rfl, rfl⟩⟩

/-- C4 counterexample: the default configuration with period1 set to 0
(violating periods ≥ 1) still passes `validate`, which returns true; the
claim that a zero-period configuration fails `validate` is refuted (the
body of `CoppockCurve::validate` is literally `true`, so no configuration
ever fails it). -/
theorem C4_counterexample :
    CoppockCurve.validate { CoppockCurve.default with period1 := 0 } = true := rfl

/-- C4 amended: `CoppockCurve::validate` checks nothing: it returns true for
every configuration, including the default configuration with period1 set
to 0. -/
theorem C4_validate_always_true :
    (∀ cfg : CoppockCurve, cfg.validate = true) ∧
      CoppockCurve.validate { CoppockCurve.default with period1 := 0 } = true :=
  ⟨fun _ => rfl, rfl⟩

/-- C5: `AverageDirectionalIndex::validate` returns true exactly when
di_length ≥ 1, adx_smoothing ≥ 1, period1 ≥ 1, period1 < di_length,
period1 < adx_smoothing and zone lies in [0, 1]; in particular it returns
false whenever period1 ≥ di_length or period1 ≥ adx_smoothing. -/
theorem validate_true_iff (cfg : AverageDirectionalIndex) :
    cfg.validate = true ↔
      (1 ≤ cfg.di_length ∧ 1 ≤ cfg.adx_smoothing ∧ 1 ≤ cfg.period1 ∧
        cfg.period1 < cfg.di_length ∧ cfg.period1 < cfg.adx_smoothing ∧
        0 ≤ cfg.zone ∧ cfg.zone ≤ 1) := by
  simp only [AverageDirectionalIndex.validate, Bool.and_eq_true, decide_eq_true_eq]
  tauto

theorem C5_adx_validate_iff :
    ∀ cfg : AverageDirectionalIndex,
      (cfg.validate = true ↔
        (1 ≤ cfg.di_length ∧ 1 ≤ cfg.adx_smoothing ∧ 1 ≤ cfg.period1 ∧
          cfg.period1 < cfg.di_length ∧ cfg.period1 < cfg.adx_smoothing ∧
          0 ≤ cfg.zone ∧ cfg.zone ≤ 1)) ∧
      ((cfg.di_length ≤ cfg.period1 ∨ cfg.adx_smoothing ≤ cfg.period1) →
        cfg.validate = false) := by
  intro cfg
  refine ⟨validate_true_iff cfg, fun h => ?_⟩
  cases hv : cfg.validate
  · rfl
  · exfalso
    obtain ⟨-, -, -, h4, h5, -, -⟩ := (validate_true_iff cfg).1 hv
    rcases h with h | h <;> omega

/-- C6: for every configuration and every field name unknown to that
configuration's `set` (not matched by any of its named cases), `set` emits
the unknown-attribute diagnostic, leaves the configuration unchanged, and
returns normally (no panic); each indicator is covered by its own
hypothesis, so names known to one indicator but not the other (such as
"zone" for CoppockCurve or "period2" for AverageDirectionalIndex) are
included. -/
theorem C6_unknown_field :
    ∀ (cfgA : AverageDirectionalIndex) (cfgC : CoppockCurve) (name value : String),
      (name ∉ adxKnownFields →
        cfgA.set name value =
          SetOutcome.ok cfgA [unknownAttrMsg name value "AverageDirectionalIndex"]) ∧
      (name ∉ coppockKnownFields →
        cfgC.set name value =
          SetOutcome.ok cfgC [unknownAttrMsg name value "CoppockCurve"]) := by
  intro cfgA cfgC name value
  constructor
  · intro hA
    simp only [adxKnownFields, List.mem_cons, List.not_mem_nil, or_false, not_or] at hA
    obtain ⟨a1, a2, a3, a4, a5, a6⟩ := hA
    simp [AverageDirectionalIndex.set, a1, a2, a3, a4, a5, a6]
  · intro hC
    simp only [coppockKnownFields, List.mem_cons, List.not_mem_nil, or_false, not_or] at hC
    obtain ⟨c1, c2, c3, c4, c5, c6, c7, c8, c9⟩ := hC
    simp [CoppockCurve.set, c1, c2, c3, c4, c5, c6, c7, c8, c9]

/-- C6 witness: per-configuration unknown names, each known to the other
indicator: "period2" is a CoppockCurve field but unknown to
AverageDirectionalIndex's `set`, and "zone" is an AverageDirectionalIndex
field but unknown to CoppockCurve's `set` (its arm is commented out in the
source). -/
theorem C6_unknown_field_witness :
    AverageDirectionalIndex.default.set "period2" "1" =
        SetOutcome.ok AverageDirectionalIndex.default
          [unknownAttrMsg "period2" "1" "AverageDirectionalIndex"] ∧
      CoppockCurve.default.set "zone" "0.2" =
        SetOutcome.ok CoppockCurve.default
          [unknownAttrMsg "zone" "0.2" "CoppockCurve"] :=
  ⟨(C6_unknown_field AverageDirectionalIndex.default CoppockCurve.default
      "period2" "1").1 (by decide),
    (C6_unknown_field AverageDirectionalIndex.default CoppockCurve.default
      "zone" "0.2").2 (by decide)⟩

/-- C7: the configuration bound at `init` is never mutated by `next`: the
instance returned by any sequence of `next` calls carries a configuration
equal to the one bound at `init`, for both indicators. -/
theorem C7_config_immutable :
    (∀ (cfg : AverageDirectionalIndex) (c0 : Candle) (bars : List Candle),
      (feedADX (cfg.init c0) bars).cfg = cfg) ∧
    (∀ (inst : AverageDirectionalIndexInstance) (c : Candle),
      ((inst.next c).2).cfg = inst.cfg) ∧
    (∀ (cfg : CoppockCurve) (c0 : Candle) (bars : List Candle),
      (feedCoppock (cfg.init c0) bars).cfg = cfg) ∧
    (∀ (inst : CoppockCurveInstance) (c : Candle), ((inst.next c).2).cfg = inst.cfg) := by
  refine ⟨fun cfg c0 bars => ?_, fun _ _ => rfl, fun cfg c0 bars => ?_, fun _ _ => rfl⟩
  · rw [feedADX_cfg]; rfl
  · rw [feedCoppock_cfg]; rfl

/-- C3 counterexample: on a known field name with an unparsable value,
`set` panics (the field assignment is `value.parse().unwrap()`), refuting
the claim that it reports a diagnostic and does not crash. -/
theorem C3_counterexample :
    AverageDirectionalIndex.default.set "di_length" "x" = SetOutcome.panicked := by
  decide

/-- C3 amended: an unknown field name is reported without a crash (see the
unknown-field theorem of C6), but for every known field name a value that
fails to parse into the field's declared type makes `set` panic via
`unwrap`, for both configurations. -/
theorem C3_known_field_unparsable_panics :
    (∀ (cfg : AverageDirectionalIndex) (name value : String),
      adxParseFails name value = true → cfg.set name value = SetOutcome.panicked) ∧
    (∀ (cfg : CoppockCurve) (name value : String),
      coppockParseFails name value = true → cfg.set name value = SetOutcome.panicked) := by
  constructor
  · intro cfg name value h
    unfold adxParseFails at h
    split_ifs at h <;>
      simp_all [AverageDirectionalIndex.set, Option.isNone_iff_eq_none]
  · intro cfg name value h
    unfold coppockParseFails at h
    split_ifs at h <;>
      simp_all [CoppockCurve.set, Option.isNone_iff_eq_none]

/-- C2 counterexample: a valid configuration and a degenerate (yet strictly
increasing) candle sequence on which the smoothed true range becomes 0, so
the unguarded divisions of `dir_mov` produce non-finite values (NaN/infinity
in the source's f64 arithmetic) and `next` emits them: the second emitted
value list has a non-finite +DI entry. -/
theorem C2_counterexample :
    cexCfg.validate = true ∧
      (cexRun.getD 1 (IndicatorResult.new [] [])).values.getD 1 (some 0) = none := by
  constructor
  · norm_num [cexCfg, AverageDirectionalIndex.validate]
  · norm_num [cexRun, cexCfg, cexC0, cexB1, cexB2, runADX, AverageDirectionalIndex.init,
      AverageDirectionalIndexInstance.next, AverageDirectionalIndexInstance.dir_mov,
      AverageDirectionalIndexInstance.adx, method, RegularMethod.next, windowPush,
      Candle.tr, plus_dm, minus_dm, vadd, vsub, vmul, vdiv, vabs, veq, vgt, vlt, vsum,
      IndicatorResult.new, List.replicate]

/-- C2 amended: the adx ratio declares its zero-denominator fallback (when
plus + minus compares equal to 0 the smoother is fed 0 instead of the
ratio), but the directional-index ratios of `dir_mov` are unguarded: when
the smoothed true range is 0 they produce non-finite values which `next`
emits. -/
theorem C2_adx_guard_dirmov_unguarded :
    (∀ (inst : AverageDirectionalIndexInstance) (plus minus : V),
        vadd plus minus = some 0 →
        inst.adx plus minus =
          ((inst.ma2.next (some 0)).1, { inst with ma2 := (inst.ma2.next (some 0)).2 })) ∧
      (cexRun.getD 1 (IndicatorResult.new [] [])).values.getD 1 (some 0) = none := by
  constructor
  · intro inst plus minus h
    simp [AverageDirectionalIndexInstance.adx, h, veq]
  · norm_num [cexRun, cexCfg, cexC0, cexB1, cexB2, runADX, AverageDirectionalIndex.init,
      AverageDirectionalIndexInstance.next, AverageDirectionalIndexInstance.dir_mov,
      AverageDirectionalIndexInstance.adx, method, RegularMethod.next, windowPush,
      Candle.tr, plus_dm, minus_dm, vadd, vsub, vmul, vdiv, vabs, veq, vgt, vlt, vsum,
      IndicatorResult.new, List.replicate]

theorem vgt_vlt_asymm (x y : V) (h : vgt x y = true) : vlt x y = false := by
  cases x <;> cases y <;> simp_all [vgt, vlt]
  exact le_of_lt h

/-- C10: the first signal of every `next` call is the integer
`(adx > zone) as i8 * ((plus > minus) as i8 - (plus < minus) as i8)`: it is
always -1, 0 or +1, it is 0 whenever adx does not exceed the zone, and when
adx exceeds the zone its sign is given by the comparison of plus against
minus. -/
theorem C10_signal1_ternary :
    ∀ (inst : AverageDirectionalIndexInstance) (c : Candle),
      (inst.next c).1.signals.getD 0 none = some ((stepSignal1 inst c : ℤ) : ℚ) ∧
      (stepSignal1 inst c = -1 ∨ stepSignal1 inst c = 0 ∨ stepSignal1 inst c = 1) ∧
      (vgt (stepAdx inst c) (some inst.cfg.zone) = false → stepSignal1 inst c = 0) ∧
      (stepSignal1 inst c = 1 ↔
        vgt (stepAdx inst c) (some inst.cfg.zone) = true ∧
          vgt (stepPlus inst c) (stepMinus inst c) = true) ∧
      (stepSignal1 inst c = -1 ↔
        vgt (stepAdx inst c) (some inst.cfg.zone) = true ∧
          vlt (stepPlus inst c) (stepMinus inst c) = true) := by
  intro inst c
  refine ⟨rfl, ?_⟩
  unfold stepSignal1
  cases hA : vgt (stepAdx inst c) (some inst.cfg.zone) <;>
    cases hB : vgt (stepPlus inst c) (stepMinus inst c) <;>
      cases hC : vlt (stepPlus inst c) (stepMinus inst c) <;>
        simp_all
  exact absurd hC (by simp [vgt_vlt_asymm _ _ hB])

/-- C9: in `dir_mov`, for every current and previous bar the directional
movements +DM and -DM are both non-negative and never simultaneously
positive. -/
theorem C9_dm_sign_exclusive :
    ∀ c p : Candle,
      0 ≤ plus_dm (c.high - p.high) (p.low - c.low) ∧
      0 ≤ minus_dm (c.high - p.high) (p.low - c.low) ∧
      ¬(0 < plus_dm (c.high - p.high) (p.low - c.low) ∧
        0 < minus_dm (c.high - p.high) (p.low - c.low)) := by
  intro c p
  simp only [plus_dm, minus_dm]
  split_ifs with h1 h2 h2
  · exact absurd h2.1 (lt_asymm h1.1)
  · refine ⟨by nlinarith [h1.2], by nlinarith, fun hb => ?_⟩
    nlinarith [hb.2]
  · refine ⟨by nlinarith, by nlinarith [h2.2], fun hb => ?_⟩
    nlinarith [hb.1]
  · refine ⟨by nlinarith, by nlinarith, fun hb => ?_⟩
    nlinarith [hb.1]

theorem candleLtb_iff (a b : Candle) : candleLtb a b = true ↔ candleLt a b := by
  simp [candleLtb, candleLt, and_assoc]

theorem candleLt_trans {a b c : Candle} (h1 : candleLt a b) (h2 : candleLt b c) :
    candleLt a c :=
  ⟨lt_trans h1.1 h2.1, lt_trans h1.2.1 h2.2.1, lt_trans h1.2.2 h2.2.2⟩

theorem mem_of_tail {x : V} {l : List V} (h : x ∈ l.tail) : x ∈ l := by
  cases l with
  | nil => simp at h
  | cons y ys => exact List.mem_cons_of_mem y h

theorem tr_nonneg (a b : Candle) : 0 ≤ a.tr b :=
  le_trans (abs_nonneg (a.high - b.close))
    (le_trans (le_max_left _ _) (le_max_right _ _))

theorem tr_pos (a b : Candle) (hwf : a.close ≤ a.high) (hc : b.close < a.close) :
    0 < a.tr b := by
  calc (0 : ℚ) < a.high - b.close := by linarith
    _ ≤ |a.high - b.close| := le_abs_self _
    _ ≤ max |a.high - b.close| |a.low - b.close| := le_max_left _ _
    _ ≤ a.tr b := le_max_right _ _

theorem vsum_nonneg_bound :
    ∀ l : List V, (∀ x ∈ l, ∃ q : ℚ, x = some q ∧ 0 ≤ q) →
      ∃ s : ℚ, vsum l = some s ∧ 0 ≤ s ∧ ∀ q : ℚ, some q ∈ l → q ≤ s := by
  intro l
  induction l with
  | nil => exact fun _ => ⟨0, rfl, le_refl 0, by simp⟩
  | cons x xs ih =>
    intro h
    obtain ⟨q0, hx, hq0⟩ := h x (List.mem_cons_self x xs)
    obtain ⟨s, hs, hs0, hbd⟩ := ih (fun y hy => h y (List.mem_cons_of_mem x hy))
    refine ⟨q0 + s, by simp [vsum, hx, hs, vadd], by linarith, ?_⟩
    intro q hq
    rcases List.mem_cons.1 hq with h1 | h1
    · rw [hx] at h1
      have hqq : q = q0 := Option.some.inj h1
      linarith
    · have := hbd q h1
      linarith

theorem wsumFrom_nonneg_bound :
    ∀ (l : List V) (i : ℕ), 1 ≤ i → (∀ x ∈ l, ∃ q : ℚ, x = some q ∧ 0 ≤ q) →
      ∃ s : ℚ, wsumFrom i l = some s ∧ 0 ≤ s ∧ ∀ q : ℚ, some q ∈ l → q ≤ s := by
  intro l
  induction l with
  | nil => exact fun _ _ _ => ⟨0, rfl, le_refl 0, by simp⟩
  | cons x xs ih =>
    intro i hi h
    obtain ⟨q0, hx, hq0⟩ := h x (List.mem_cons_self x xs)
    obtain ⟨s, hs, hs0, hbd⟩ :=
      ih (i + 1) (by omega) (fun y hy => h y (List.mem_cons_of_mem x hy))
    have hiq : (1 : ℚ) ≤ (i : ℚ) := by exact_mod_cast hi
    refine ⟨(i : ℚ) * q0 + s, by simp [wsumFrom, hx, hs, vadd, vmul], by nlinarith, ?_⟩
    intro q hq
    rcases List.mem_cons.1 hq with h1 | h1
    · rw [hx] at h1
      have hqq : q = q0 := Option.some.inj h1
      nlinarith
    · have := hbd q h1
      nlinarith

theorem vsum_zero : ∀ l : List V, (∀ x ∈ l, x = some 0) → vsum l = some 0 := by
  intro l
  induction l with
  | nil => exact fun _ => rfl
  | cons x xs ih =>
    intro h
    rw [vsum, h x (List.mem_cons_self x xs),
      ih (fun y hy => h y (List.mem_cons_of_mem x hy))]
    simp [vadd]

theorem wsumFrom_zero :
    ∀ (l : List V) (i : ℕ), (∀ x ∈ l, x = some 0) → wsumFrom i l = some 0 := by
  intro l
  induction l with
  | nil => exact fun _ _ => rfl
  | cons x xs ih =>
    intro i h
    rw [wsumFrom, h x (List.mem_cons_self x xs),
      ih (i + 1) (fun y hy => h y (List.mem_cons_of_mem x hy))]
    simp [vadd, vmul]

theorem method_nonneg (tag : RegularMethods) (p : ℕ) (q : ℚ) (hp : 1 ≤ p) (hq : 0 ≤ q) :
    (method tag p (some q)).Nonneg := by
  have hp1 : (1 : ℚ) ≤ (p : ℚ) := by exact_mod_cast hp
  cases tag with
  | SMA =>
    simp only [method, RegularMethod.Nonneg]
    exact ⟨hp, List.length_replicate p _, fun x hx => ⟨q, List.eq_of_mem_replicate hx, hq⟩⟩
  | WMA =>
    simp only [method, RegularMethod.Nonneg]
    exact ⟨hp, List.length_replicate p _, fun x hx => ⟨q, List.eq_of_mem_replicate hx, hq⟩⟩
  | EMA =>
    simp only [method, RegularMethod.Nonneg]
    refine ⟨by positivity, ?_, q, rfl, hq⟩
    rw [div_le_one (by positivity)]
    linarith
  | RMA =>
    simp only [method, RegularMethod.Nonneg]
    refine ⟨by positivity, ?_, q, rfl, hq⟩
    rw [div_le_one (by linarith)]
    linarith

theorem method_zero (tag : RegularMethods) (p : ℕ) (hp : 1 ≤ p) :
    (method tag p (some 0)).ZeroState := by
  cases tag with
  | SMA =>
    exact ⟨hp, fun x hx => List.eq_of_mem_replicate hx⟩
  | WMA =>
    exact ⟨hp, fun x hx => List.eq_of_mem_replicate hx⟩
  | EMA => rfl
  | RMA => rfl

theorem RegularMethod.next_nonneg (m : RegularMethod) (t : ℚ) (hm : m.Nonneg) (ht : 0 ≤ t) :
    (∃ q : ℚ, (m.next (some t)).1 = some q ∧ 0 ≤ q ∧ (0 < t → 0 < q)) ∧
      (m.next (some t)).2.Nonneg := by
  cases m with
  | sma p buf =>
    obtain ⟨hp, hlen, hb⟩ := hm
    have hppos : (0 : ℚ) < (p : ℚ) := by exact_mod_cast Nat.lt_of_lt_of_le Nat.zero_lt_one hp
    have hb2 : ∀ x ∈ buf.tail ++ [some t], ∃ q : ℚ, x = some q ∧ 0 ≤ q := by
      intro x hx
      rcases List.mem_append.1 hx with h | h
      · exact hb x (mem_of_tail h)
      · rw [List.mem_singleton.1 h]
        exact ⟨t, rfl, ht⟩
    obtain ⟨s, hs, hs0, hbd⟩ := vsum_nonneg_bound _ hb2
    have hts : t ≤ s := hbd t (List.mem_append.2 (Or.inr (List.mem_singleton_self _)))
    constructor
    · refine ⟨s / p, ?_, div_nonneg hs0 (le_of_lt hppos), fun ht0 => div_pos (by linarith) hppos⟩
      simp only [RegularMethod.next, hs, vdiv]
      rw [if_neg (ne_of_gt hppos)]
    · refine ⟨hp, ?_, hb2⟩
      rw [List.length_append, List.length_tail, hlen]
      simp
      omega
  | wma p buf =>
    obtain ⟨hp, hlen, hb⟩ := hm
    have hppos : (0 : ℚ) < (p : ℚ) := by exact_mod_cast Nat.lt_of_lt_of_le Nat.zero_lt_one hp
    have hdpos : (0 : ℚ) < (p : ℚ) * ((p : ℚ) + 1) / 2 := by positivity
    have hb2 : ∀ x ∈ buf.tail ++ [some t], ∃ q : ℚ, x = some q ∧ 0 ≤ q := by
      intro x hx
      rcases List.mem_append.1 hx with h | h
      · exact hb x (mem_of_tail h)
      · rw [List.mem_singleton.1 h]
        exact ⟨t, rfl, ht⟩
    obtain ⟨s, hs, hs0, hbd⟩ := wsumFrom_nonneg_bound (buf.tail ++ [some t]) 1 (le_refl 1) hb2
    have hts : t ≤ s := hbd t (List.mem_append.2 (Or.inr (List.mem_singleton_self _)))
    constructor
    · refine ⟨s / ((p : ℚ) * ((p : ℚ) + 1) / 2), ?_,
        div_nonneg hs0 (le_of_lt hdpos), fun ht0 => div_pos (by linarith) hdpos⟩
      simp only [RegularMethod.next, hs, vdiv]
      rw [if_neg (ne_of_gt hdpos)]
    · refine ⟨hp, ?_, hb2⟩
      rw [List.length_append, List.length_tail, hlen]
      simp
      omega
  | ema a prev =>
    obtain ⟨ha0, ha1, q0, hq0, hq00⟩ := hm
    have h1 : 0 ≤ q0 * (1 - a) := mul_nonneg hq00 (by linarith)
    have h2 : 0 ≤ t * a := mul_nonneg ht (le_of_lt ha0)
    constructor
    · refine ⟨q0 * (1 - a) + t * a, ?_, by linarith, fun ht0 => ?_⟩
      · simp only [RegularMethod.next, hq0, vadd, vmul]
      · have h3 : 0 < t * a := mul_pos ht0 ha0
        linarith
    · refine ⟨ha0, ha1, q0 * (1 - a) + t * a, ?_, by linarith⟩
      simp only [RegularMethod.next, hq0, vadd, vmul]

theorem RegularMethod.next_zero (m : RegularMethod) (hm : m.ZeroState) :
    (m.next (some 0)).1 = some 0 ∧ (m.next (some 0)).2.ZeroState := by
  cases m with
  | sma p buf =>
    obtain ⟨hp, hb⟩ := hm
    have hppos : (0 : ℚ) < (p : ℚ) := by exact_mod_cast Nat.lt_of_lt_of_le Nat.zero_lt_one hp
    have hb2 : ∀ x ∈ buf.tail ++ [some 0], x = some 0 := by
      intro x hx
      rcases List.mem_append.1 hx with h | h
      · exact hb x (mem_of_tail h)
      · exact List.mem_singleton.1 h
    constructor
    · simp only [RegularMethod.next, vsum_zero _ hb2, vdiv]
      rw [if_neg (ne_of_gt hppos)]
      norm_num
    · exact ⟨hp, hb2⟩
  | wma p buf =>
    obtain ⟨hp, hb⟩ := hm
    have hppos : (0 : ℚ) < (p : ℚ) := by exact_mod_cast Nat.lt_of_lt_of_le Nat.zero_lt_one hp
    have hdpos : (0 : ℚ) < (p : ℚ) * ((p : ℚ) + 1) / 2 := by positivity
    have hb2 : ∀ x ∈ buf.tail ++ [some 0], x = some 0 := by
      intro x hx
      rcases List.mem_append.1 hx with h | h
      · exact hb x (mem_of_tail h)
      · exact List.mem_singleton.1 h
    constructor
    · simp only [RegularMethod.next, wsumFrom_zero _ 1 hb2, vdiv]
      rw [if_neg (ne_of_gt hdpos)]
      norm_num
    · exact ⟨hp, hb2⟩
  | ema a prev =>
    have hm2 : prev = some 0 := hm
    constructor <;> simp [RegularMethod.next, hm2, vadd, vmul, RegularMethod.ZeroState]

theorem next_step_pos (inst : AverageDirectionalIndexInstance) (b w : Candle)
    (ws : List Candle) (hwin : inst.window = w :: ws)
    (h1 : inst.tr_ma.Nonneg) (h2 : inst.plus_di.Nonneg) (h3 : inst.minus_di.ZeroState)
    (hwf : b.close ≤ b.high) (hlt : candleLt w b) :
    (∃ q : ℚ, (inst.next b).1.signals.getD 1 (some 0) = some q ∧ 0 < q) ∧
      (inst.next b).2.tr_ma.Nonneg ∧ (inst.next b).2.plus_di.Nonneg ∧
      (inst.next b).2.minus_di.ZeroState ∧ (inst.next b).2.window = ws ++ [b] := by
  have htr : 0 < b.tr w := tr_pos b w hwf hlt.2.2
  have hdu : 0 < b.high - w.high := by
    have := hlt.1
    linarith
  have hdd : w.low - b.low < 0 := by
    have := hlt.2.1
    linarith
  have hpdm : plus_dm (b.high - w.high) (w.low - b.low) = b.high - w.high := by
    rw [plus_dm, if_pos ⟨by linarith, hdu⟩, mul_one]
  have hmdm : minus_dm (b.high - w.high) (w.low - b.low) = 0 := by
    rw [minus_dm, if_neg, mul_zero]
    rintro ⟨hc, -⟩
    linarith
  obtain ⟨⟨trq, htrq, htrq0, htrqpos⟩, htrst⟩ :=
    RegularMethod.next_nonneg inst.tr_ma (b.tr w) h1 (le_of_lt htr)
  obtain ⟨⟨pq, hpq, hpq0, hpqpos⟩, hpst⟩ :=
    RegularMethod.next_nonneg inst.plus_di (b.high - w.high) h2 (le_of_lt hdu)
  obtain ⟨hmq, hmst⟩ := RegularMethod.next_zero inst.minus_di h3
  have htrqp : 0 < trq := htrqpos htr
  have hpqp : 0 < pq := hpqpos hdu
  simp only [AverageDirectionalIndexInstance.next, AverageDirectionalIndexInstance.dir_mov,
    hwin, windowPush, hpdm, hmdm, htrq, hpq, hmq]
  refine ⟨⟨pq / trq, ?_, ?_⟩, ?_, ?_, ?_, ?_⟩
  · simp [AverageDirectionalIndexInstance.adx, IndicatorResult.new, vdiv, vsub,
      htrqp.ne', zero_div, sub_zero, List.getD]
  · exact div_pos hpqp htrqp
  · simpa [AverageDirectionalIndexInstance.adx] using htrst
  · simpa [AverageDirectionalIndexInstance.adx] using hpst
  · simpa [AverageDirectionalIndexInstance.adx] using hmst
  · simp [AverageDirectionalIndexInstance.adx]

theorem runADX_signal2_pos :
    ∀ (bars : List Candle) (inst : AverageDirectionalIndexInstance),
      inst.tr_ma.Nonneg → inst.plus_di.Nonneg → inst.minus_di.ZeroState →
      inst.window ≠ [] →
      (∀ w ∈ inst.window, ∀ b, bars.head? = some b → candleLt w b) →
      chainPairsB bars = true →
      (∀ b ∈ bars, b.close ≤ b.high) →
      ∀ r ∈ runADX inst bars, ∃ q : ℚ, r.signals.getD 1 (some 0) = some q ∧ 0 < q := by
  intro bars
  induction bars with
  | nil =>
    intro inst _ _ _ _ _ _ _ r hr
    simp [runADX] at hr
  | cons b bs ih =>
    intro inst h1 h2 h3 hwne hwhead hchain hwf r hr
    obtain ⟨w, ws, hwin⟩ : ∃ w ws, inst.window = w :: ws := by
      cases hw : inst.window with
      | nil => exact absurd hw hwne
      | cons w ws => exact ⟨w, ws, rfl⟩
    have hltwb : candleLt w b :=
      hwhead w (by rw [hwin]; exact List.mem_cons_self w ws) b rfl
    have hwfb : b.close ≤ b.high := hwf b (List.mem_cons_self b bs)
    obtain ⟨⟨q, hq, hq0⟩, htr2, hp2, hm2, hwin2⟩ :=
      next_step_pos inst b w ws hwin h1 h2 h3 hwfb hltwb
    simp only [runADX] at hr
    rcases List.mem_cons.1 hr with h | h
    · exact ⟨q, by rw [h]; exact hq, hq0⟩
    · refine ih (inst.next b).2 htr2 hp2 hm2 ?_ ?_ ?_ ?_ r h
      · rw [hwin2]
        simp
      · intro w2 hw2 b2 hb2
        rw [hwin2] at hw2
        cases bs with
        | nil => simp at hb2
        | cons b3 bs3 =>
          have hb3 : b3 = b2 := by simpa using hb2
          subst hb3
          have hcc : candleLtb b b3 = true ∧ chainPairsB (b3 :: bs3) = true := by
            simpa [chainPairsB] using hchain
          have hbb3 : candleLt b b3 := (candleLtb_iff b b3).1 hcc.1
          rcases List.mem_append.1 hw2 with h4 | h4
          · exact candleLt_trans
              (hwhead w2 (by rw [hwin]; exact List.mem_cons_of_mem w h4) b rfl) hbb3
          · rw [List.mem_singleton.1 h4]
            exact hbb3
      · cases bs with
        | nil => rfl
        | cons b3 bs3 =>
          have hcc : candleLtb b b3 = true ∧ chainPairsB (b3 :: bs3) = true := by
            simpa [chainPairsB] using hchain
          exact hcc.2
      · intro b2 hb2
        exact hwf b2 (List.mem_cons_of_mem b hb2)

theorem chainIncB_to_pairs :
    ∀ (l : List Candle) (p : Candle), chainIncB p l = true → chainPairsB l = true := by
  intro l
  induction l with
  | nil => intro p _; rfl
  | cons b bs ih =>
    intro p h
    have hh : candleLtb p b = true ∧ chainIncB b bs = true := by
      simpa [chainIncB] using h
    cases bs with
    | nil => rfl
    | cons b3 bs3 =>
      have hh2 : candleLtb b b3 = true ∧ chainIncB b3 bs3 = true := by
        simpa [chainIncB] using hh.2
      have : chainPairsB (b3 :: bs3) = true := ih b hh.2
      simp [chainPairsB, hh2.1, this]

/-- C8 counterexample: a valid configuration and a strictly increasing
candle sequence (highs, lows and closes all strictly rising) on which the
second emitted "+direction minus -direction" signal is the non-finite value
(NaN in the source's f64 arithmetic, from the unguarded division by a zero
smoothed true range), hence not positive: the bars are strictly increasing
but have close above high, which makes every true range 0. -/
theorem C8_counterexample :
    cexCfg.validate = true ∧ chainIncB cexC0 [cexB1, cexB2] = true ∧
      (cexRun.getD 1 (IndicatorResult.new [] [])).signals.getD 1 (some 0) = none := by
  refine ⟨by norm_num [cexCfg, AverageDirectionalIndex.validate], ?_, ?_⟩
  · norm_num [chainIncB, candleLtb, cexC0, cexB1, cexB2]
  · norm_num [cexRun, cexCfg, cexC0, cexB1, cexB2, runADX, AverageDirectionalIndex.init,
      AverageDirectionalIndexInstance.next, AverageDirectionalIndexInstance.dir_mov,
      AverageDirectionalIndexInstance.adx, method, RegularMethod.next, windowPush,
      Candle.tr, plus_dm, minus_dm, vadd, vsub, vmul, vdiv, vabs, veq, vgt, vlt, vsum,
      IndicatorResult.new, List.replicate]

/-- C8 amended: for every valid configuration and every strictly increasing
price sequence whose bars close at or below their highs, the
"+direction minus -direction" signal channel (the second signal emitted by
`next`) is a positive finite value on every emission. -/
theorem C8_increasing_signal2_pos :
    ∀ (cfg : AverageDirectionalIndex) (c0 : Candle) (bars : List Candle),
      cfg.validate = true →
      chainIncB c0 bars = true →
      bars.all (fun b => decide (b.close ≤ b.high)) = true →
      ∀ r ∈ runADX (cfg.init c0) bars,
        ∃ q : ℚ, r.signals.getD 1 (some 0) = some q ∧ 0 < q := by
  intro cfg c0 bars hv hchain hwf
  obtain ⟨hdi, hadx, hp1, -, -, -, -⟩ := (validate_true_iff cfg).1 hv
  refine runADX_signal2_pos bars (cfg.init c0) ?_ ?_ ?_ ?_ ?_ ?_ ?_
  · exact method_nonneg cfg.method1 cfg.di_length (c0.tr c0) hdi (tr_nonneg c0 c0)
  · exact method_nonneg cfg.method1 cfg.di_length 0 hdi (le_refl 0)
  · exact method_zero cfg.method1 cfg.di_length hdi
  · show List.replicate cfg.period1 c0 ≠ []
    intro h
    have := congrArg List.length h
    simp at this
    omega
  · intro w hw b hb
    have hw0 : w = c0 := List.eq_of_mem_replicate hw
    rw [hw0]
    cases bars with
    | nil => simp at hb
    | cons b1 bs1 =>
      have hb1 : b1 = b := by simpa using hb
      subst hb1
      have hh : candleLtb c0 b1 = true ∧ chainIncB b1 bs1 = true := by
        simpa [chainIncB] using hchain
      exact (candleLtb_iff c0 b1).1 hh.1
  · exact chainIncB_to_pairs bars c0 hchain
  · intro b hb
    have := List.all_eq_true.1 hwf b hb
    simpa using this

/-- C8 witness: the default-style valid configuration with simple moving
averages over a two-bar strictly increasing well-formed run emits a
positive second signal. -/
theorem C8_increasing_signal2_pos_witness :
    ∃ q : ℚ,
      ((runADX (cexCfg.init ⟨2, 1, 2⟩) [⟨3, 2, 3⟩]).getD 0
          (IndicatorResult.new [] [])).signals.getD 1 (some 0) = some q ∧ 0 < q :=
  C8_increasing_signal2_pos cexCfg ⟨2, 1, 2⟩ [⟨3, 2, 3⟩]
    (by norm_num [cexCfg, AverageDirectionalIndex.validate])
    (by norm_num [chainIncB, candleLtb])
    (by norm_num)
    ((runADX (cexCfg.init ⟨2, 1, 2⟩) [⟨3, 2, 3⟩]).getD 0 (IndicatorResult.new [] []))
    (List.mem_cons_self _ _)

end Yata
